import Mathlib

/-!
Shallow embedding of `src/raindrop.py` (function `make_raindrop_chart`).

Modelling conventions:

* A pandas row of the downloaded frame is a `Bar`: timestamp plus the
  OHLCV columns.  Timestamps are natural numbers counted in the time unit
  of the grouping frequency (minutes in the application), measured from
  the grouping anchor.  `pd.Grouper(freq=...)` anchors its regular grid at
  `origin="start_day"` (midnight of the first bar's day) and
  `Series.dt.floor` anchors at the epoch; as in the application's default
  configuration the bin width divides a day, all three grouping
  operations of the source share one grid, whose origin is `t = 0` here.
* Prices and volumes are exact rationals (`ℚ`); pandas floats are modelled
  exactly.  `x / 0 = 0` in `ℚ` mirrors the fact that the source never
  divides by zero on the paths the claims speak about (guards `Volume > 0`
  and the `df.empty` check run first).
* The bin width is `2 * h` where `h` is the split (half-bin) width,
  mirroring `split_frequency = grouping_frequency / 2` (line 53).
* `df.groupby(pd.Grouper(key="Datetime", freq=f))` bins rows on the
  regular grid of width `f`; its aggregation output has one row per grid
  cell from the cell of the earliest timestamp to the cell of the latest,
  including empty cells (`BinGrouper` semantics, same as `resample`).
  `.ngroup()` on such a grouper numbers the rows with the index of their
  cell in that full range — empty cells are counted, numbering starts at
  the cell containing the earliest timestamp.
-/

/-- One row of the downloaded OHLCV frame (lines 21-26, 44-49 of
`src/raindrop.py`): timestamp and the `Open`, `High`, `Low`, `Close`,
`Volume` columns. -/
structure Bar where
  t : Nat
  Open : ℚ
  High : ℚ
  Low : ℚ
  Close : ℚ
  Volume : ℚ
deriving DecidableEq

/-- Line 48: `df["Typical"] = df[["Open","High","Low","Close"]].sum(axis=1) / 4`. -/
def Typical (b : Bar) : ℚ := (b.Open + b.High + b.Low + b.Close) / 4

/-- Line 49: `df["QTY*PX"] = df["Volume"] * df["Typical"]`. -/
def qtyPx (b : Bar) : ℚ := b.Volume * Typical b

/-- Earliest timestamp of the frame (`0` for an empty frame, a case the
source rejects at line 29 before any grouping). -/
def minT (bars : List Bar) : Nat := ((bars.map Bar.t).min?).getD 0

/-- Latest timestamp of the frame. -/
def maxT (bars : List Bar) : Nat := ((bars.map Bar.t).max?).getD 0

/-- Lines 69-70: `df["Split"] = df.groupby(pd.Grouper(key="Datetime",
freq=split_frequency)).ngroup() % 2`.  The grouper's grid has width `h`;
`ngroup` numbers the half-windows of the grid consecutively (empty
half-windows included) starting from the half-window of the earliest
timestamp, so a bar's group number is `b.t / h - minT bars / h`. -/
def splitOf (h : Nat) (bars : List Bar) (b : Bar) : Nat :=
  (b.t / h - minT bars / h) % 2

/-- Index on the bin grid (width `2 * h`) of the bin owning a bar; the
bin's label (line 71, `df["Datetime"].dt.floor(grouping_frequency)`) is
`binIdx h b * (2 * h)`. -/
def binIdx (h : Nat) (b : Bar) : Nat := b.t / (2 * h)

/-- The rows of the frame falling in bin `k` of the grid. -/
def barsInBin (h : Nat) (bars : List Bar) (k : Nat) : List Bar :=
  bars.filter (fun b => binIdx h b == k)

/-- First bin of the grouper's range: the bin of the earliest timestamp. -/
def minBin (h : Nat) (bars : List Bar) : Nat := minT bars / (2 * h)

/-- Last bin of the grouper's range: the bin of the latest timestamp. -/
def maxBin (h : Nat) (bars : List Bar) : Nat := maxT bars / (2 * h)

/-- All bin indices of the grouper's output range, empty bins included
(`pd.Grouper` covers the full span of the data, like `resample`). -/
def binRange (h : Nat) (bars : List Bar) : List Nat :=
  List.range' (minBin h bars) (maxBin h bars - minBin h bars + 1)

/-- One row of the aggregated frame `ohlc` (lines 56-62).  `first` and
`last` of an empty bin are missing values (`NaN`), hence `Option`;
`sum` of an empty bin is `0`. -/
structure OhlcRow where
  Datetime : Nat
  Open : Option ℚ
  High : Option ℚ
  Low : Option ℚ
  Close : Option ℚ
  Volume : ℚ
deriving DecidableEq

/-- The aggregated row of bin `k` (lines 56-62): `Open=("Open","first")`,
`High=("High","max")`, `Low=("Low","min")`, `Close=("Close","last")`,
`Volume=("Volume","sum")`; the row label is the left edge of the bin. -/
def ohlcRow (h : Nat) (bars : List Bar) (k : Nat) : OhlcRow :=
  let g := barsInBin h bars k
  { Datetime := k * (2 * h)
    Open := g.head?.map Bar.Open
    High := (g.map Bar.High).max?
    Low := (g.map Bar.Low).min?
    Close := g.getLast?.map Bar.Close
    Volume := (g.map Bar.Volume).sum }

/-- The aggregated frame `ohlc` (lines 56-62): one row per bin of the
grouper's full range. -/
def ohlc (h : Nat) (bars : List Bar) : List OhlcRow :=
  (binRange h bars).map (ohlcRow h bars)

/-- Line 84: `for period, period_df in df.groupby("Datetime")` iterates
the distinct floored bin labels in ascending order — exactly the
populated bins of the range, in order.  (Indices `k`; the label is
`k * (2 * h)`.) -/
def periodsList (h : Nat) (bars : List Bar) : List Nat :=
  (binRange h bars).filter (fun k => !(barsInBin h bars k).isEmpty)

/-- The rows of bin `k` carrying split parity `s` (line 85 groups
`period_df` by `"Split"`, line 97 again). -/
def splitBars (h : Nat) (bars : List Bar) (k s : Nat) : List Bar :=
  (barsInBin h bars k).filter (fun b => splitOf h bars b == s)

/-- Summed `Volume` of one split group of a bin (line 85). -/
def halfVol (h : Nat) (bars : List Bar) (k s : Nat) : ℚ :=
  ((splitBars h bars k s).map Bar.Volume).sum

/-- Summed `QTY*PX` of one split group of a bin (line 85). -/
def halfNotional (h : Nat) (bars : List Bar) (k s : Nat) : ℚ :=
  ((splitBars h bars k s).map qtyPx).sum

/-- Line 88: `vwap_df["VWAP"] = vwap_df["QTY*PX"] / vwap_df["Volume"]`. -/
def halfVWAP (h : Nat) (bars : List Bar) (k s : Nat) : ℚ :=
  halfNotional h bars k s / halfVol h bars k s

/-- Trace colors: `"green"`, `"red"`, `"blue"` (blue is the neutral
default, line 89). -/
inductive Color where
  | green
  | red
  | blue
deriving DecidableEq

/-- The split values surviving line 86's `vwap_df.query("Volume > 0")`,
in the sorted order `groupby("Split")` yields them. -/
def positiveSplits (h : Nat) (bars : List Bar) (k : Nat) : List Nat :=
  [0, 1].filter (fun s => decide (0 < halfVol h bars k s))

/-- Lines 89-95: color starts `"blue"`; when `vwap_df` keeps both split
rows (`len(vwap_df.index) > 1`), `vwap_open, vwap_close` are rows 0 and 1
(split 0 and split 1) and the strict margin comparisons pick
green / red / blue. -/
def binColor (margin : ℚ) (h : Nat) (bars : List Bar) (k : Nat) : Color :=
  match positiveSplits h bars k with
  | [s0, s1] =>
    if margin < halfVWAP h bars k s1 - halfVWAP h bars k s0 then .green
    else if margin < halfVWAP h bars k s0 - halfVWAP h bars k s1 then .red
    else .blue
  | _ => .blue

/-- The `vwap_open, vwap_close` pair left behind by the loop of lines
84-95: reassigned at every period whose `vwap_df` keeps two rows, so the
final value comes from the last such period; `none` when no period ever
assigned them (the source then hits a `NameError` at line 182). -/
def returnedVwaps (h : Nat) (bars : List Bar) : Option (ℚ × ℚ) :=
  (periodsList h bars).foldl
    (fun acc k =>
      match positiveSplits h bars k with
      | [s0, s1] => some (halfVWAP h bars k s0, halfVWAP h bars k s1)
      | _ => acc)
    none

/-- Largest `Volume` of the frame (line 72, `df["Volume"].max()`). -/
def maxVolume (bars : List Bar) : ℚ := ((bars.map Bar.Volume).max?).getD 0

/-- Line 72: `volume_divider = df["Volume"].max() / 1000`. -/
def volumeDivider (bars : List Bar) : ℚ := maxVolume bars / 1000

/-- `Series.round()` (line 96) rounds half to even (numpy rounding). -/
def roundHalfEven (x : ℚ) : ℤ :=
  if x - ⌊x⌋ < 1 / 2 then ⌊x⌋
  else if (1 : ℚ) / 2 < x - ⌊x⌋ then ⌊x⌋ + 1
  else if 2 ∣ ⌊x⌋ then ⌊x⌋ else ⌊x⌋ + 1

/-- The repetition weight of a bar (line 96:
`period_df["Volume"].div(volume_divider).round()`). -/
def weightOf (bars : List Bar) (b : Bar) : ℤ :=
  roundHalfEven (b.Volume / volumeDivider bars)

/-- The split values `groupby("Split")` observes in bin `k` (line 97). -/
def observedSplits (h : Nat) (bars : List Bar) (k : Nat) : List Nat :=
  [0, 1].filter (fun s => !(splitBars h bars k s).isEmpty)

/-- Line 99, `split_df.loc[split_df.index.repeat(split_df["Volume"])]`:
one row repeated its rounded-weight many times. -/
def repRows (bars : List Bar) (b : Bar) : List Bar :=
  List.replicate (weightOf bars b).toNat b

/-- The replicated rows of one violin trace (lines 97-99): the rows of
one observed split group of a bin, each repeated `weightOf` times; the
trace plots `Typical` of these rows. -/
def traceRows (h : Nat) (bars : List Bar) (k s : Nat) : List Bar :=
  (splitBars h bars k s).flatMap (repRows bars)

/-- The replicated rows a period contributes (lines 87-119): nothing when
`vwap_df` is empty after the `Volume > 0` filter (line 87's guard),
otherwise the traces of the observed split groups. -/
def periodRows (h : Nat) (bars : List Bar) (k : Nat) : List Bar :=
  match positiveSplits h bars k with
  | [] => []
  | _ :: _ => (observedSplits h bars k).flatMap (traceRows h bars k)

/-- All replicated rows feeding the violin traces (the loop of lines
84-120). -/
def distribution (h : Nat) (bars : List Bar) : List Bar :=
  (periodsList h bars).flatMap (periodRows h bars)

/-- `"green" if x["Open"] < x["Close"] else "red"` (line 137); a
comparison with a missing value is false, as for `NaN` in pandas. -/
def optLt (a b : Option ℚ) : Bool :=
  match a, b with
  | some x, some y => decide (x < y)
  | _, _ => false

/-- Line 137: the volume-bar color of an aggregated row. -/
def barColor (r : OhlcRow) : Color :=
  if optLt r.Open r.Close then .green else .red

/-- Volume scaling, for the scale-invariance claim: every bar's volume
multiplied by `c`. -/
def scaleVol (c : ℚ) (b : Bar) : Bar := { b with Volume := c * b.Volume }

/-- The distinct failure sites of `make_raindrop_chart`, with the message
each one formats (all are re-raised as `ValueError("An error occurred
while generating the chart: " + msg)` by the handler at lines 184-185). -/
inductive ChartError where
  | invalidParams (msg : String)
  | noData (msg : String)
  | aggEmpty (msg : String)
  | nameError (msg : String)
deriving DecidableEq

/-- The value returned at line 182 (the figure itself is presentation and
carries `points` as its violin data). -/
structure ChartResult where
  vwapOpen : ℚ
  vwapClose : ℚ
  lastRecord : OhlcRow
  points : List Bar
  colors : List Color
deriving DecidableEq

/-- Python truthiness of an optional string parameter: `not s` is true
for an absent (`None`) or empty string. -/
def pyFalsyStr (s? : Option String) : Bool :=
  match s? with
  | none => true
  | some s => s == ""

/-- `make_raindrop_chart` (lines 6-185).  `download` stands for the
external `yf.download` collaborator; `ticker?`, `startDate?`, `endDate?`
are `None` when the caller omits them (`ticker` has default `"AAPL"`,
line 7, and is never validated; line 17 checks only `start` and `end`).
Order of failure sites follows the source: parameter check (line 17),
empty download (line 29), empty aggregation (line 65), and the
`NameError` at line 182 when no period ever assigned `vwap_open`. -/
def make_raindrop_chart (download : String → String → String → List Bar)
    (ticker? startDate? endDate? : Option String) (h : Nat) (margin : ℚ) :
    Except ChartError ChartResult :=
  if pyFalsyStr startDate? || pyFalsyStr endDate? then
    .error (.invalidParams "Start and End dates must be provided.")
  else
    let ticker := ticker?.getD "AAPL"
    let startDate := startDate?.getD ""
    let endDate := endDate?.getD ""
    let df := download ticker startDate endDate
    if df.isEmpty then
      .error (.noData ("No data returned for " ++ ticker ++ " between " ++
        startDate ++ " and " ++ endDate ++
        ". Check if the ticker is correct or if there's data available in this range."))
    else if (ohlc h df).isEmpty then
      .error (.aggEmpty ("No data available after processing for " ++ ticker ++
        ". Try using a different date range or frequency."))
    else
      match returnedVwaps h df with
      | some (vo, vc) =>
        .ok { vwapOpen := vo
              vwapClose := vc
              lastRecord := (ohlc h df).getLast?.getD (ohlcRow h df 0)
              points := distribution h df
              colors := (periodsList h df).map (binColor margin h df) }
      | none => .error (.nameError "name 'vwap_open' is not defined")

example : splitOf 15 [⟨0, 1, 1, 1, 1, 1⟩, ⟨35, 1, 1, 1, 1, 1⟩] ⟨35, 1, 1, 1, 1, 1⟩ = 0 := by
  decide

example : binIdx 15 ⟨35, 1, 1, 1, 1, 1⟩ = 1 := by decide

/-! ### Basic facts about the timeline -/

theorem minT_le_of_mem {bars : List Bar} {b : Bar} (hb : b ∈ bars) :
    minT bars ≤ b.t :=
  List.min?_getD_le_of_mem (List.mem_map_of_mem Bar.t hb)

theorem le_maxT_of_mem {bars : List Bar} {b : Bar} (hb : b ∈ bars) :
    b.t ≤ maxT bars :=
  List.le_max?_getD_of_mem (List.mem_map_of_mem Bar.t hb)

/-! ### C1: half-bin parity -/

/-- A frame starting inside the second half of a bin: one bar at minute
20, bin width 30 (half width 15). -/
def c1bars : List Bar := [{ t := 20, Open := 1, High := 1, Low := 1, Close := 1, Volume := 1 }]

/-- C1 is false as stated: the parity the code assigns is the half-window
counter started at the earliest bar's half-window, not the bar's absolute
half-bin index mod 2.  With bin width 30 and a single bar at minute 20,
the bar's global half-bin index is 20 / 15 = 1 (second half of its bin),
but `ngroup` numbers that half-window 0, so the code assigns parity 0. -/
theorem C1_counterexample :
    ∃ b ∈ c1bars, splitOf 15 c1bars b ≠ b.t / 15 % 2 := by decide

/-- C1 (amended): a bar's half-bin parity equals its global half-bin
index (timestamp floored to half the bin width) taken modulo 2 offset by
the earliest bar's half-bin index; hence whenever the earliest bar's
half-bin index is even — as in the spec's example of bars at minutes 0
and 35 — the parity equals the global half-bin index mod 2. -/
theorem C1_parity (h : Nat) (bars : List Bar) (b : Bar) (hb : b ∈ bars)
    (hfirst : minT bars / h % 2 = 0) :
    splitOf h bars b = b.t / h % 2 := by
  have h1 : minT bars ≤ b.t := minT_le_of_mem hb
  have h2 : minT bars / h ≤ b.t / h := Nat.div_le_div_right h1
  unfold splitOf
  omega

/-- The spec's sparse example: bars only at minutes 0 and 35, bin width
30. -/
def c1sparse : List Bar :=
  [{ t := 0, Open := 1, High := 1, Low := 1, Close := 1, Volume := 1 },
   { t := 35, Open := 1, High := 1, Low := 1, Close := 1, Volume := 1 }]

theorem C1_witness :
    (minT c1sparse / 15 % 2 = 0
      ∧ binIdx 15 ⟨0, 1, 1, 1, 1, 1⟩ ≠ binIdx 15 ⟨35, 1, 1, 1, 1, 1⟩
      ∧ splitOf 15 c1sparse ⟨0, 1, 1, 1, 1, 1⟩ = 0)
    ∧ splitOf 15 c1sparse ⟨35, 1, 1, 1, 1, 1⟩ = 35 / 15 % 2 :=
  ⟨by decide, C1_parity 15 c1sparse ⟨35, 1, 1, 1, 1, 1⟩ (by decide) (by decide)⟩

/-! ### C10: volume-bar color -/

/-- C10: a volume bar is green exactly when the bin's aggregated open is
strictly below its aggregated close, and red otherwise; equality gives
red, and no third color exists for volume bars. -/
theorem C10_volumeBarColor (h : Nat) (bars : List Bar) (r : OhlcRow)
    (_hr : r ∈ ohlc h bars) :
    (barColor r = .green ↔ ∃ o c, r.Open = some o ∧ r.Close = some c ∧ o < c)
    ∧ (barColor r = .green ∨ barColor r = .red)
    ∧ (r.Open = r.Close → barColor r = .red) := by
  refine ⟨?_, ?_, ?_⟩
  · cases ho : r.Open with
    | none => simp [barColor, optLt, ho]
    | some x =>
      cases hc : r.Close with
      | none => simp [barColor, optLt, ho, hc]
      | some y =>
        by_cases hxy : x < y
        · simp [barColor, optLt, ho, hc, hxy]
        · simp [barColor, optLt, ho, hc, hxy]
  · unfold barColor
    by_cases hlt : optLt r.Open r.Close <;> simp [hlt]
  · intro heq
    cases ho : r.Open with
    | none =>
      have hc : r.Close = none := by rw [← heq, ho]
      simp [barColor, optLt, ho, hc]
    | some x =>
      have hc : r.Close = some x := heq ▸ ho
      simp [barColor, optLt, ho, hc]

theorem C10_witness :
    ((barColor (ohlcRow 15 c1sparse 0) = .green
        ↔ ∃ o c, (ohlcRow 15 c1sparse 0).Open = some o
          ∧ (ohlcRow 15 c1sparse 0).Close = some c ∧ o < c)
      ∧ (barColor (ohlcRow 15 c1sparse 0) = .green
          ∨ barColor (ohlcRow 15 c1sparse 0) = .red)
      ∧ ((ohlcRow 15 c1sparse 0).Open = (ohlcRow 15 c1sparse 0).Close
          → barColor (ohlcRow 15 c1sparse 0) = .red))
    ∧ barColor (ohlcRow 15 c1sparse 0) = .red :=
  ⟨C10_volumeBarColor 15 c1sparse (ohlcRow 15 c1sparse 0)
      (List.mem_map_of_mem (ohlcRow 15 c1sparse) (by decide)),
    by norm_num [barColor, optLt, ohlcRow, barsInBin, binIdx, c1sparse]⟩

/-! ### C2: three-way color classification -/

/-- C2 (amended): the classification compares the *split-labeled* groups,
not the chronological halves: with both split groups of a bin carrying
positive volume, the bin is green exactly when
`(vwap_close - vwap_open) > margin` — the split-1 VWAP against the
split-0 VWAP — red exactly when the opposite difference exceeds
`margin`, and blue (neutral) exactly when the difference lies in the
closed interval `[-margin, margin]`; with at most one split group of
positive volume the bin is blue and no comparison happens.  The split
labels coincide with the chronological halves exactly when the earliest
bar's half-bin index is even (the C1 property); otherwise they are
swapped, see `C2_counterexample`.  (`margin` is the spec's non-negative
threshold.) -/
theorem C2_classification (margin : ℚ) (h : Nat) (bars : List Bar) (k : Nat)
    (hm : 0 ≤ margin) :
    (0 < halfVol h bars k 0 → 0 < halfVol h bars k 1 →
      (binColor margin h bars k = .green
          ↔ margin < halfVWAP h bars k 1 - halfVWAP h bars k 0)
      ∧ (binColor margin h bars k = .red
          ↔ margin < halfVWAP h bars k 0 - halfVWAP h bars k 1)
      ∧ (binColor margin h bars k = .blue
          ↔ |halfVWAP h bars k 1 - halfVWAP h bars k 0| ≤ margin))
    ∧ (¬(0 < halfVol h bars k 0 ∧ 0 < halfVol h bars k 1) →
        binColor margin h bars k = .blue) := by
  constructor
  · intro h0 h1
    have hps : positiveSplits h bars k = [0, 1] := by
      simp [positiveSplits, h0, h1]
    unfold binColor
    rw [hps]
    dsimp only
    set d0 := halfVWAP h bars k 0 with hd0
    set d1 := halfVWAP h bars k 1 with hd1
    split_ifs with hgt hlt
    · refine ⟨⟨fun _ => hgt, fun _ => rfl⟩, ⟨fun hc => (nomatch hc), ?_⟩,
        ⟨fun hc => (nomatch hc), ?_⟩⟩
      · intro h2
        exact absurd (by linarith : margin < margin) (lt_irrefl margin)
      · intro habs
        exact absurd hgt (not_lt.2 (le_trans (le_abs_self (d1 - d0)) habs))
    · refine ⟨⟨fun hc => (nomatch hc), fun hg => (hgt hg).elim⟩,
        ⟨fun _ => hlt, fun _ => rfl⟩, ⟨fun hc => (nomatch hc), ?_⟩⟩
      intro habs
      have hswap : d0 - d1 ≤ |d1 - d0| := by
        rw [abs_sub_comm]
        exact le_abs_self (d0 - d1)
      exact absurd hlt (not_lt.2 (le_trans hswap habs))
    · refine ⟨⟨fun hc => (nomatch hc), fun hg => (hgt hg).elim⟩,
        ⟨fun hc => (nomatch hc), fun hr => (hlt hr).elim⟩,
        ⟨fun _ => abs_le.2 ⟨by linarith, by linarith⟩, fun _ => rfl⟩⟩
  · intro hno
    by_cases h0 : 0 < halfVol h bars k 0 <;> by_cases h1 : 0 < halfVol h bars k 1
    · exact absurd ⟨h0, h1⟩ hno
    · have hps : positiveSplits h bars k = [0] := by simp [positiveSplits, h0, h1]
      simp [binColor, hps]
    · have hps : positiveSplits h bars k = [1] := by simp [positiveSplits, h0, h1]
      simp [binColor, hps]
    · have hps : positiveSplits h bars k = [] := by simp [positiveSplits, h0, h1]
      simp [binColor, hps]

/-- The spec's worked scenario: volumes 10, 20, 10, 20 and typical prices
100, 102, 101, 103, the first two bars in the first half, the last two in
the second half of one 30-minute bin. -/
def c2bars : List Bar :=
  [{ t := 0, Open := 100, High := 100, Low := 100, Close := 100, Volume := 10 },
   { t := 5, Open := 102, High := 102, Low := 102, Close := 102, Volume := 20 },
   { t := 15, Open := 101, High := 101, Low := 101, Close := 101, Volume := 10 },
   { t := 20, Open := 103, High := 103, Low := 103, Close := 103, Volume := 20 }]

theorem C2_witness :
    0 < halfVol 15 c2bars 0 0 ∧ 0 < halfVol 15 c2bars 0 1
    ∧ (binColor (1 / 2) 15 c2bars 0 = .green
        ↔ (1 : ℚ) / 2 < halfVWAP 15 c2bars 0 1 - halfVWAP 15 c2bars 0 0) := by
  have hv0 : 0 < halfVol 15 c2bars 0 0 := by
    norm_num [halfVol, splitBars, barsInBin, binIdx, splitOf, minT, c2bars]
  have hv1 : 0 < halfVol 15 c2bars 0 1 := by
    norm_num [halfVol, splitBars, barsInBin, binIdx, splitOf, minT, c2bars]
  exact ⟨hv0, hv1, ((C2_classification (1 / 2) 15 c2bars 0 (by norm_num)).1 hv0 hv1).1⟩

/-- The spec's notion of a bin's halves, written from the spec's words
for comparison with the code's split labels: bin `k` spans the absolute
half-windows `2k` (its chronologically first half) and `2k + 1` (its
second half), so the chronological half of a bar is the absolute
half-window parity `(t / h) % 2`, independent of where the data starts
(`j = 0` the earlier half, `j = 1` the later one). -/
def chronoHalfBars (h : Nat) (bars : List Bar) (k j : Nat) : List Bar :=
  (barsInBin h bars k).filter (fun b => b.t / h % 2 == j)

/-- The spec's VWAP of a chronological half of a bin:
`sum(notional) / sum(volume)` over that half. -/
def chronoHalfVWAP (h : Nat) (bars : List Bar) (k j : Nat) : ℚ :=
  ((chronoHalfBars h bars k j).map qtyPx).sum
    / ((chronoHalfBars h bars k j).map Bar.Volume).sum

/-- A frame starting inside the second half of a bin, with a later bin
fully populated: bars at minutes 20, 40 and 50 (bin width 30).  In bin
`[30, 60)` the chronologically first half holds the minute-40 bar
(typical price 110) and the second half the minute-50 bar (typical price
100), but the earliest bar's half-window index is odd, so the code's
split labels are swapped: split 0 is the minute-50 bar and split 1 the
minute-40 bar. -/
def c2swap : List Bar :=
  [{ t := 20, Open := 100, High := 100, Low := 100, Close := 100, Volume := 1 },
   { t := 40, Open := 110, High := 110, Low := 110, Close := 110, Volume := 1 },
   { t := 50, Open := 100, High := 100, Low := 100, Close := 100, Volume := 1 }]

/-- C2 is false as stated: in bin 1 of `c2swap` both chronological halves
have positive volume and the first-half VWAP exceeds the second-half VWAP
by 10 > margin = 1 — the claim demands the bin be colored down (red) —
yet the code, comparing the swapped split labels, colors it green. -/
theorem C2_counterexample :
    0 < ((chronoHalfBars 15 c2swap 1 0).map Bar.Volume).sum
    ∧ 0 < ((chronoHalfBars 15 c2swap 1 1).map Bar.Volume).sum
    ∧ 1 < chronoHalfVWAP 15 c2swap 1 0 - chronoHalfVWAP 15 c2swap 1 1
    ∧ binColor 1 15 c2swap 1 ≠ .red
    ∧ binColor 1 15 c2swap 1 = .green := by
  have hch0 : chronoHalfBars 15 c2swap 1 0
      = [{ t := 40, Open := 110, High := 110, Low := 110, Close := 110, Volume := 1 }] := by
    decide
  have hch1 : chronoHalfBars 15 c2swap 1 1
      = [{ t := 50, Open := 100, High := 100, Low := 100, Close := 100, Volume := 1 }] := by
    decide
  have hsb0 : splitBars 15 c2swap 1 0
      = [{ t := 50, Open := 100, High := 100, Low := 100, Close := 100, Volume := 1 }] := by
    decide
  have hsb1 : splitBars 15 c2swap 1 1
      = [{ t := 40, Open := 110, High := 110, Low := 110, Close := 110, Volume := 1 }] := by
    decide
  have hv0 : halfVol 15 c2swap 1 0 = 1 := by rw [halfVol, hsb0]; norm_num
  have hv1 : halfVol 15 c2swap 1 1 = 1 := by rw [halfVol, hsb1]; norm_num
  have hps : positiveSplits 15 c2swap 1 = [0, 1] := by
    norm_num [positiveSplits, hv0, hv1]
  have hw0 : halfVWAP 15 c2swap 1 0 = 100 := by
    rw [halfVWAP, halfNotional, hsb0, hv0]
    norm_num [qtyPx, Typical]
  have hw1 : halfVWAP 15 c2swap 1 1 = 110 := by
    rw [halfVWAP, halfNotional, hsb1, hv1]
    norm_num [qtyPx, Typical]
  have hcolor : binColor 1 15 c2swap 1 = .green := by
    unfold binColor
    rw [hps]
    dsimp only
    rw [hw0, hw1]
    norm_num
  refine ⟨?_, ?_, ?_, ?_, hcolor⟩
  · rw [hch0]
    norm_num
  · rw [hch1]
    norm_num
  · have hc0 : chronoHalfVWAP 15 c2swap 1 0 = 110 := by
      rw [chronoHalfVWAP, hch0]
      norm_num [qtyPx, Typical]
    have hc1 : chronoHalfVWAP 15 c2swap 1 1 = 100 := by
      rw [chronoHalfVWAP, hch1]
      norm_num [qtyPx, Typical]
    rw [hc0, hc1]
    norm_num
  · rw [hcolor]
    decide

/-! ### C3: which bin the returned VWAP pair comes from -/

/-- The last populated bin whose two split groups both carry positive
volume (reading direction of the loop of line 84 reversed). -/
def lastFullPeriod? (h : Nat) (bars : List Bar) : Option Nat :=
  (periodsList h bars).reverse.find? (fun k =>
    decide (0 < halfVol h bars k 0) && decide (0 < halfVol h bars k 1))

theorem foldl_lastAssign {α : Type} (p : Nat → Bool) (f : Nat → α) (l : List Nat) :
    ∀ acc : Option α,
      l.foldl (fun a k => if p k then some (f k) else a) acc
        = ((l.reverse.find? p).map f).or acc := by
  induction l with
  | nil => intro acc; rfl
  | cons k ks ih =>
    intro acc
    rw [List.foldl_cons, ih, List.reverse_cons, List.find?_append]
    cases hfind : ks.reverse.find? p with
    | some j => simp [hfind]
    | none => by_cases hk : p k <;> simp [hfind, hk]

/-- C3 (amended): the two scalar VWAP values returned at line 182 are the
split-0 and split-1 VWAPs of the *last* bin, in chronological order, both
of whose split groups have positive volume — which is the final bin only
when the final bin itself has both groups populated; when no bin
qualifies, the names are never assigned and the call fails. -/
theorem C3_lastAssigned (h : Nat) (bars : List Bar) :
    returnedVwaps h bars
      = (lastFullPeriod? h bars).map
          (fun k => (halfVWAP h bars k 0, halfVWAP h bars k 1)) := by
  have hstep : (fun (acc : Option (ℚ × ℚ)) k =>
      match positiveSplits h bars k with
      | [s0, s1] => some (halfVWAP h bars k s0, halfVWAP h bars k s1)
      | _ => acc)
      = fun acc k =>
        if (decide (0 < halfVol h bars k 0) && decide (0 < halfVol h bars k 1))
        then some (halfVWAP h bars k 0, halfVWAP h bars k 1) else acc := by
    funext acc k
    by_cases h0 : 0 < halfVol h bars k 0 <;> by_cases h1 : 0 < halfVol h bars k 1 <;>
      simp [positiveSplits, h0, h1]
  rw [returnedVwaps, hstep, foldl_lastAssign]
  simp [lastFullPeriod?]

/-- A frame whose final bin has only its first half populated: bin 0 has
bars at minutes 0 and 15 (typical prices 100 and 110), bin 1 only a bar
at minute 30 (typical price 103). -/
def c3bars : List Bar :=
  [{ t := 0, Open := 100, High := 100, Low := 100, Close := 100, Volume := 1 },
   { t := 15, Open := 110, High := 110, Low := 110, Close := 110, Volume := 1 },
   { t := 30, Open := 103, High := 103, Low := 103, Close := 103, Volume := 1 }]

/-- C3 is false as stated: on `c3bars` the call succeeds and returns the
VWAP pair (100, 110) of bin 0, although the final bin of the processed
range is bin 1, whose first-half VWAP is 103. -/
theorem C3_counterexample :
    returnedVwaps 15 c3bars = some (100, 110)
    ∧ maxBin 15 c3bars = 1
    ∧ returnedVwaps 15 c3bars
        ≠ some (halfVWAP 15 c3bars (maxBin 15 c3bars) 0,
            halfVWAP 15 c3bars (maxBin 15 c3bars) 1) := by
  have hper : periodsList 15 c3bars = [0, 1] := by decide
  have hsb00 : splitBars 15 c3bars 0 0
      = [{ t := 0, Open := 100, High := 100, Low := 100, Close := 100, Volume := 1 }] := by
    decide
  have hsb01 : splitBars 15 c3bars 0 1
      = [{ t := 15, Open := 110, High := 110, Low := 110, Close := 110, Volume := 1 }] := by
    decide
  have hsb10 : splitBars 15 c3bars 1 0
      = [{ t := 30, Open := 103, High := 103, Low := 103, Close := 103, Volume := 1 }] := by
    decide
  have hsb11 : splitBars 15 c3bars 1 1 = [] := by decide
  have hv00 : halfVol 15 c3bars 0 0 = 1 := by rw [halfVol, hsb00]; norm_num
  have hv01 : halfVol 15 c3bars 0 1 = 1 := by rw [halfVol, hsb01]; norm_num
  have hv10 : halfVol 15 c3bars 1 0 = 1 := by rw [halfVol, hsb10]; norm_num
  have hv11 : halfVol 15 c3bars 1 1 = 0 := by rw [halfVol, hsb11]; norm_num
  have hw00 : halfVWAP 15 c3bars 0 0 = 100 := by
    rw [halfVWAP, halfNotional, hsb00, hv00]; norm_num [qtyPx, Typical]
  have hw01 : halfVWAP 15 c3bars 0 1 = 110 := by
    rw [halfVWAP, halfNotional, hsb01, hv01]; norm_num [qtyPx, Typical]
  have hw10 : halfVWAP 15 c3bars 1 0 = 103 := by
    rw [halfVWAP, halfNotional, hsb10, hv10]; norm_num [qtyPx, Typical]
  have hp0 : positiveSplits 15 c3bars 0 = [0, 1] := by
    norm_num [positiveSplits, hv00, hv01]
  have hp1 : positiveSplits 15 c3bars 1 = [0] := by
    norm_num [positiveSplits, hv10, hv11]
  have hret : returnedVwaps 15 c3bars = some (100, 110) := by
    rw [returnedVwaps, hper]
    simp only [List.foldl_cons, List.foldl_nil, hp0, hp1]
    rw [hw00, hw01]
  have hmax : maxBin 15 c3bars = 1 := by decide
  refine ⟨hret, hmax, ?_⟩
  rw [hret, hmax, hw10]
  intro hcontr
  rw [Option.some.injEq, Prod.mk.injEq] at hcontr
  exact absurd hcontr.1 (by norm_num)

/-! ### C4: zero-volume bins are not dropped from the aggregated frame -/

/-- Two bars one hour apart with 30-minute bins: the middle bin
`[30, 60)` is empty. -/
def c4bars : List Bar :=
  [{ t := 0, Open := 1, High := 1, Low := 1, Close := 1, Volume := 1 },
   { t := 60, Open := 2, High := 2, Low := 2, Close := 2, Volume := 1 }]

/-- C4 is false as stated: the aggregation of lines 56-62 never drops a
bin, so the `ohlc` frame of `c4bars` contains a row of total volume `0`
(the empty middle bin), which the claim says must be absent. -/
theorem C4_counterexample : ∃ r ∈ ohlc 15 c4bars, r.Volume = 0 := by
  refine ⟨ohlcRow 15 c4bars 1, List.mem_map_of_mem (ohlcRow 15 c4bars) (by decide), ?_⟩
  have hempty : barsInBin 15 c4bars 1 = [] := by decide
  simp [ohlcRow, hempty]

/-- C4 (amended): the OHLC frame keeps one row for *every* bin of the
covered range — a bin with zero total volume included (an empty bin shows
volume `0` and missing prices); nothing is dropped. -/
theorem C4_retained (h : Nat) (bars : List Bar) (k : Nat)
    (hk : k ∈ binRange h bars) :
    ∃ r ∈ ohlc h bars, r.Datetime = k * (2 * h)
      ∧ r.Volume = ((barsInBin h bars k).map Bar.Volume).sum :=
  ⟨ohlcRow h bars k, List.mem_map_of_mem (ohlcRow h bars) hk, rfl, rfl⟩

theorem C4_witness :
    ∃ r ∈ ohlc 15 c4bars, r.Datetime = 1 * (2 * 15)
      ∧ r.Volume = ((barsInBin 15 c4bars 1).map Bar.Volume).sum :=
  C4_retained 15 c4bars 1 (by decide)

/-! ### C8: volume conservation -/

theorem sum_map_ite_eq (a : Nat) (c : ℚ) (keys : List Nat) (hnd : keys.Nodup) :
    (keys.map (fun k => if a = k then c else 0)).sum
      = if keys.contains a then c else 0 := by
  induction keys with
  | nil => simp
  | cons k ks ih =>
    rcases List.nodup_cons.1 hnd with ⟨hk, hnd2⟩
    simp only [List.map_cons, List.sum_cons, List.contains_cons]
    by_cases hak : a = k
    · subst hak
      have hz : (ks.map (fun j => if a = j then c else 0)).sum = 0 := by
        refine List.sum_eq_zero fun x hx => ?_
        rcases List.mem_map.1 hx with ⟨j, hj, rfl⟩
        have : a ≠ j := fun haj => hk (haj ▸ hj)
        simp [this]
      simp [hz]
    · have hbeq : (a == k) = false := by simp [hak]
      simp [hak, hbeq, ih hnd2]

/-- Summing a function bin by bin over disjoint key classes equals
summing over all rows whose key is among the listed bins. -/
theorem sum_over_keys (f : Bar → ℚ) (key : Bar → Nat) (keys : List Nat)
    (hnd : keys.Nodup) :
    ∀ bars : List Bar,
      (keys.map (fun k => ((bars.filter (fun b => key b == k)).map f).sum)).sum
        = ((bars.filter (fun b => keys.contains (key b))).map f).sum := by
  intro bars
  induction bars with
  | nil => simp
  | cons b rest ih =>
    have hinner : ∀ k : Nat,
        (((b :: rest).filter (fun x => key x == k)).map f).sum
          = (if key b = k then f b else 0)
            + ((rest.filter (fun x => key x == k)).map f).sum := by
      intro k
      rw [List.filter_cons]
      by_cases hbk : key b = k
      · simp [hbk]
      · have : (key b == k) = false := by simp [hbk]
        simp [this, hbk]
    calc (keys.map (fun k => (((b :: rest).filter (fun x => key x == k)).map f).sum)).sum
        = (keys.map (fun k => (if key b = k then f b else 0)
            + ((rest.filter (fun x => key x == k)).map f).sum)).sum := by
          congr 1
          exact List.map_congr_left fun k _ => hinner k
      _ = (keys.map (fun k => if key b = k then f b else 0)).sum
            + (keys.map (fun k => ((rest.filter (fun x => key x == k)).map f).sum)).sum := by
          rw [← List.sum_map_add]
      _ = (if keys.contains (key b) then f b else 0)
            + ((rest.filter (fun x => keys.contains (key x))).map f).sum := by
          rw [sum_map_ite_eq (key b) (f b) keys hnd, ih]
      _ = (((b :: rest).filter (fun x => keys.contains (key x))).map f).sum := by
          rw [List.filter_cons]
          by_cases hmem : key b ∈ keys <;> simp [hmem]

/-- Dropping rows on which `f` vanishes does not change a sum. -/
theorem sum_map_filter_of_zero (f : Bar → ℚ) (p : Bar → Bool)
    (bars : List Bar) (h0 : ∀ b ∈ bars, p b = false → f b = 0) :
    ((bars.filter p).map f).sum = (bars.map f).sum := by
  induction bars with
  | nil => rfl
  | cons b rest ih =>
    have hrest := fun x hx hpx => h0 x (List.mem_cons_of_mem b hx) hpx
    rw [List.filter_cons]
    by_cases hb : p b
    · simp [hb, ih hrest]
    · have hz : f b = 0 := h0 b (List.mem_cons_self b rest) (by simpa using hb)
      simp [hb, ih hrest, hz]

/-- C8: for a non-empty frame of non-negative volumes, the total of the
aggregated per-bin volumes of the `ohlc` frame equals the total volume of
the input bars restricted to bars whose bin has positive total volume
(bars of zero-total bins carry zero volume themselves, so nothing is
lost). -/
theorem C8_volumeConservation (h : Nat) (bars : List Bar) (_hne : bars ≠ [])
    (hnn : ∀ b ∈ bars, 0 ≤ b.Volume) :
    ((ohlc h bars).map OhlcRow.Volume).sum
      = ((bars.filter (fun b =>
          decide (0 < ((barsInBin h bars (binIdx h b)).map Bar.Volume).sum))).map
          Bar.Volume).sum := by
  have h1 : (ohlc h bars).map OhlcRow.Volume
      = (binRange h bars).map
          (fun k => ((bars.filter (fun b => binIdx h b == k)).map Bar.Volume).sum) := by
    rw [ohlc, List.map_map]
    rfl
  have hnd : (binRange h bars).Nodup := List.nodup_range' _ _
  have hmemrange : ∀ b ∈ bars, binIdx h b ∈ binRange h bars := by
    intro b hb
    have hlo : minBin h bars ≤ binIdx h b := Nat.div_le_div_right (minT_le_of_mem hb)
    have hhi : binIdx h b ≤ maxBin h bars := Nat.div_le_div_right (le_maxT_of_mem hb)
    rw [binRange, List.mem_range'_1]
    omega
  have h2 : bars.filter (fun b => (binRange h bars).contains (binIdx h b)) = bars := by
    rw [List.filter_eq_self]
    intro b hb
    simpa using hmemrange b hb
  rw [h1, sum_over_keys Bar.Volume (binIdx h) (binRange h bars) hnd bars, h2]
  symm
  apply sum_map_filter_of_zero
  intro b hb hp
  have hmem : b ∈ barsInBin h bars (binIdx h b) :=
    List.mem_filter.2 ⟨hb, by simp⟩
  have hle : b.Volume ≤ ((barsInBin h bars (binIdx h b)).map Bar.Volume).sum := by
    apply List.single_le_sum
    · intro x hx
      rcases List.mem_map.1 hx with ⟨c, hc, rfl⟩
      exact hnn c (List.mem_filter.1 hc).1
    · exact List.mem_map_of_mem Bar.Volume hmem
  have hns : ¬ (0 < ((barsInBin h bars (binIdx h b)).map Bar.Volume).sum) := by
    simpa using hp
  have hv0 : 0 ≤ b.Volume := hnn b hb
  have := not_lt.1 hns
  linarith

theorem C8_witness :
    c4bars ≠ [] ∧ (∀ b ∈ c4bars, 0 ≤ b.Volume)
    ∧ ((ohlc 15 c4bars).map OhlcRow.Volume).sum
        = ((c4bars.filter (fun b =>
            decide (0 < ((barsInBin 15 c4bars (binIdx 15 b)).map Bar.Volume).sum))).map
            Bar.Volume).sum :=
  ⟨by decide, by decide, C8_volumeConservation 15 c4bars (by decide) (by decide)⟩

/-! ### C6: each half VWAP lies between the half's typical-price extremes -/

theorem sum_qtyPx_le_max (M : ℚ) (g : List Bar)
    (hnn : ∀ b ∈ g, 0 ≤ b.Volume) (hM : ∀ b ∈ g, Typical b ≤ M) :
    (g.map qtyPx).sum ≤ M * (g.map Bar.Volume).sum := by
  induction g with
  | nil => simp
  | cons b rest ih =>
    simp only [List.map_cons, List.sum_cons]
    have hv := hnn b (List.mem_cons_self b rest)
    have ht := hM b (List.mem_cons_self b rest)
    have h1 : qtyPx b ≤ M * b.Volume := by
      rw [qtyPx]
      calc b.Volume * Typical b ≤ b.Volume * M := mul_le_mul_of_nonneg_left ht hv
        _ = M * b.Volume := mul_comm _ _
    have h2 := ih (fun x hx => hnn x (List.mem_cons_of_mem b hx))
      (fun x hx => hM x (List.mem_cons_of_mem b hx))
    calc qtyPx b + (rest.map qtyPx).sum
        ≤ M * b.Volume + M * (rest.map Bar.Volume).sum := add_le_add h1 h2
      _ = M * (b.Volume + (rest.map Bar.Volume).sum) := by ring

theorem min_mul_le_sum_qtyPx (m : ℚ) (g : List Bar)
    (hnn : ∀ b ∈ g, 0 ≤ b.Volume) (hm : ∀ b ∈ g, m ≤ Typical b) :
    m * (g.map Bar.Volume).sum ≤ (g.map qtyPx).sum := by
  induction g with
  | nil => simp
  | cons b rest ih =>
    simp only [List.map_cons, List.sum_cons]
    have hv := hnn b (List.mem_cons_self b rest)
    have ht := hm b (List.mem_cons_self b rest)
    have h1 : m * b.Volume ≤ qtyPx b := by
      rw [qtyPx]
      calc m * b.Volume = b.Volume * m := mul_comm _ _
        _ ≤ b.Volume * Typical b := mul_le_mul_of_nonneg_left ht hv
    have h2 := ih (fun x hx => hnn x (List.mem_cons_of_mem b hx))
      (fun x hx => hm x (List.mem_cons_of_mem b hx))
    calc m * (b.Volume + (rest.map Bar.Volume).sum)
        = m * b.Volume + m * (rest.map Bar.Volume).sum := by ring
      _ ≤ qtyPx b + (rest.map qtyPx).sum := add_le_add h1 h2

/-- C6: in a bin whose two split groups both carry positive volume, each
group's VWAP (summed notional over summed volume) lies between the least
and the greatest typical price of the group's bars. -/
theorem C6_vwapBounds (h : Nat) (bars : List Bar) (k s : Nat)
    (hnn : ∀ b ∈ bars, 0 ≤ b.Volume)
    (h0 : 0 < halfVol h bars k 0) (h1 : 0 < halfVol h bars k 1)
    (hs : s = 0 ∨ s = 1) :
    ((splitBars h bars k s).map Typical).minimum ≤ (halfVWAP h bars k s : WithTop ℚ)
    ∧ (halfVWAP h bars k s : WithBot ℚ) ≤ ((splitBars h bars k s).map Typical).maximum := by
  have hvol : 0 < halfVol h bars k s := by rcases hs with rfl | rfl <;> assumption
  have hvolg : 0 < ((splitBars h bars k s).map Bar.Volume).sum := hvol
  have hgnn : ∀ b ∈ splitBars h bars k s, 0 ≤ b.Volume := by
    intro b hb
    exact hnn b (List.mem_filter.1 (List.mem_filter.1 hb).1).1
  have hgne : splitBars h bars k s ≠ [] := by
    intro hnil
    rw [hnil] at hvolg
    simp at hvolg
  have hne2 : (splitBars h bars k s).map Typical ≠ [] := by simpa using hgne
  obtain ⟨M, hM⟩ : ∃ M : ℚ, ((splitBars h bars k s).map Typical).maximum = M := by
    cases hmx : ((splitBars h bars k s).map Typical).maximum with
    | bot => exact absurd hmx (List.maximum_ne_bot_of_ne_nil hne2)
    | coe M => exact ⟨M, rfl⟩
  obtain ⟨m, hm⟩ : ∃ m : ℚ, ((splitBars h bars k s).map Typical).minimum = m := by
    cases hmn : ((splitBars h bars k s).map Typical).minimum with
    | top => exact absurd hmn (List.minimum_ne_top_of_ne_nil hne2)
    | coe m => exact ⟨m, rfl⟩
  have hMbound : ∀ b ∈ splitBars h bars k s, Typical b ≤ M := by
    intro b hb
    have hb2 := List.le_maximum_of_mem' (List.mem_map_of_mem Typical hb)
    rw [hM] at hb2
    exact_mod_cast hb2
  have hmbound : ∀ b ∈ splitBars h bars k s, m ≤ Typical b := by
    intro b hb
    have hb2 := List.minimum_le_of_mem' (List.mem_map_of_mem Typical hb)
    rw [hm] at hb2
    exact_mod_cast hb2
  have hle : halfVWAP h bars k s ≤ M := by
    rw [halfVWAP, div_le_iff₀ hvol]
    exact sum_qtyPx_le_max M (splitBars h bars k s) hgnn hMbound
  have hge : m ≤ halfVWAP h bars k s := by
    rw [halfVWAP, le_div_iff₀ hvol]
    exact min_mul_le_sum_qtyPx m (splitBars h bars k s) hgnn hmbound
  constructor
  · rw [hm]
    exact_mod_cast hge
  · rw [hM]
    exact_mod_cast hle

theorem C6_witness :
    ((splitBars 15 c2bars 0 0).map Typical).minimum
        ≤ (halfVWAP 15 c2bars 0 0 : WithTop ℚ)
    ∧ (halfVWAP 15 c2bars 0 0 : WithBot ℚ)
        ≤ ((splitBars 15 c2bars 0 0).map Typical).maximum := by
  have hv0 : 0 < halfVol 15 c2bars 0 0 := by
    norm_num [halfVol, splitBars, barsInBin, binIdx, splitOf, minT, c2bars]
  have hv1 : 0 < halfVol 15 c2bars 0 1 := by
    norm_num [halfVol, splitBars, barsInBin, binIdx, splitOf, minT, c2bars]
  exact C6_vwapBounds 15 c2bars 0 0 (by decide) hv0 hv1 (Or.inl rfl)

/-! ### C7: invariance of VWAPs and colors under volume scaling -/

theorem minT_scale (c : ℚ) (bars : List Bar) :
    minT (bars.map (scaleVol c)) = minT bars := by
  rw [minT, minT, List.map_map]
  rfl

theorem barsInBin_scale (c : ℚ) (h : Nat) (bars : List Bar) (k : Nat) :
    barsInBin h (bars.map (scaleVol c)) k = (barsInBin h bars k).map (scaleVol c) := by
  rw [barsInBin, barsInBin, List.filter_map]
  rfl

theorem splitBars_scale (c : ℚ) (h : Nat) (bars : List Bar) (k s : Nat) :
    splitBars h (bars.map (scaleVol c)) k s = (splitBars h bars k s).map (scaleVol c) := by
  rw [splitBars, splitBars, barsInBin_scale, List.filter_map]
  congr 1
  apply List.filter_congr
  intro b _
  show (splitOf h (List.map (scaleVol c) bars) (scaleVol c b) == s)
      = (splitOf h bars b == s)
  rw [splitOf, splitOf, minT_scale]
  rfl

theorem halfVol_scale (c : ℚ) (h : Nat) (bars : List Bar) (k s : Nat) :
    halfVol h (bars.map (scaleVol c)) k s = c * halfVol h bars k s := by
  rw [halfVol, halfVol, splitBars_scale, List.map_map]
  have : (Bar.Volume ∘ scaleVol c) = fun b => c * b.Volume := rfl
  rw [this, List.sum_map_mul_left]

theorem halfNotional_scale (c : ℚ) (h : Nat) (bars : List Bar) (k s : Nat) :
    halfNotional h (bars.map (scaleVol c)) k s = c * halfNotional h bars k s := by
  rw [halfNotional, halfNotional, splitBars_scale, List.map_map]
  have : (qtyPx ∘ scaleVol c) = fun b => c * qtyPx b := by
    funext b
    rw [Function.comp_apply, qtyPx, qtyPx]
    show c * b.Volume * Typical b = c * (b.Volume * Typical b)
    ring
  rw [this, List.sum_map_mul_left]

theorem halfVWAP_scale (c : ℚ) (h : Nat) (bars : List Bar) (k s : Nat) (hc : c ≠ 0) :
    halfVWAP h (bars.map (scaleVol c)) k s = halfVWAP h bars k s := by
  rw [halfVWAP, halfVWAP, halfVol_scale, halfNotional_scale]
  exact mul_div_mul_left (halfNotional h bars k s) (halfVol h bars k s) hc

theorem positiveSplits_scale (c : ℚ) (h : Nat) (bars : List Bar) (k : Nat) (hc : 0 < c) :
    positiveSplits h (bars.map (scaleVol c)) k = positiveSplits h bars k := by
  rw [positiveSplits, positiveSplits]
  apply List.filter_congr
  intro s _
  rw [halfVol_scale]
  simp only [decide_eq_decide]
  exact mul_pos_iff_of_pos_left hc

/-- C7: multiplying every bar's volume by a positive constant changes no
half-bin VWAP and no bin color. -/
theorem C7_scaleInvariance (margin c : ℚ) (h : Nat) (bars : List Bar) (k : Nat)
    (hc : 0 < c) :
    (∀ s, halfVWAP h (bars.map (scaleVol c)) k s = halfVWAP h bars k s)
    ∧ binColor margin h (bars.map (scaleVol c)) k = binColor margin h bars k := by
  have hvwap : ∀ s, halfVWAP h (bars.map (scaleVol c)) k s = halfVWAP h bars k s :=
    fun s => halfVWAP_scale c h bars k s (ne_of_gt hc)
  refine ⟨hvwap, ?_⟩
  unfold binColor
  rw [positiveSplits_scale c h bars k hc]
  cases positiveSplits h bars k with
  | nil => rfl
  | cons s0 tail =>
    cases tail with
    | nil => rfl
    | cons s1 t2 =>
      cases t2 with
      | nil => simp only [hvwap]
      | cons s2 t3 => rfl

theorem C7_witness :
    (0:ℚ) < 3
    ∧ (∀ s, halfVWAP 15 (c2bars.map (scaleVol 3)) 0 s = halfVWAP 15 c2bars 0 s)
    ∧ binColor (1 / 2) 15 (c2bars.map (scaleVol 3)) 0 = binColor (1 / 2) 15 c2bars 0 :=
  ⟨by norm_num, (C7_scaleInvariance (1 / 2) 3 15 c2bars 0 (by norm_num)).1,
    (C7_scaleInvariance (1 / 2) 3 15 c2bars 0 (by norm_num)).2⟩

/-! ### C9: repetition weights of the tick distribution -/

/-- Half-to-even rounding lands within half a unit of its input. -/
theorem roundHalfEven_abs_le (x : ℚ) : |x - (roundHalfEven x : ℚ)| ≤ 1 / 2 := by
  have h0 : (0 : ℚ) ≤ x - ⌊x⌋ := by
    have := Int.floor_le x
    linarith
  have h1 : x - ⌊x⌋ < 1 := by
    have := Int.lt_floor_add_one x
    linarith
  rw [roundHalfEven]
  split_ifs with hlt hgt hev
  · rw [abs_le]
    constructor <;> linarith
  · rw [abs_le]
    push_cast
    constructor <;> linarith
  · rw [abs_le]
    constructor <;> linarith
  · rw [abs_le]
    push_cast
    constructor <;> linarith

theorem roundHalfEven_zero : roundHalfEven 0 = 0 := by
  norm_num [roundHalfEven]

theorem count_flatMap {α β : Type} [DecidableEq β] (f : α → List β) (l : List α) (b : β) :
    (l.flatMap f).count b = (l.map (fun a => (f a).count b)).sum := by
  induction l with
  | nil => rfl
  | cons a as ih => simp [List.flatMap_cons, List.count_append, ih]

theorem sum_map_count_eq {α : Type} [DecidableEq α] (g : α → Nat) (l : List α) (a : α)
    (hz : ∀ x ∈ l, x ≠ a → g x = 0) :
    (l.map g).sum = l.count a * g a := by
  induction l with
  | nil => simp
  | cons x xs ih =>
    have hxs := fun y hy => hz y (List.mem_cons_of_mem x hy)
    simp only [List.map_cons, List.sum_cons, List.count_cons, ih hxs]
    by_cases hxa : x = a
    · subst hxa
      simp only [beq_self_eq_true, if_true]
      ring
    · have hgx := hz x (List.mem_cons_self x xs) hxa
      have hbeq : (x == a) = false := by simp [hxa]
      simp [hgx, hbeq]

theorem splitOf_lt_two (h : Nat) (bars : List Bar) (b : Bar) :
    splitOf h bars b = 0 ∨ splitOf h bars b = 1 := by
  rw [splitOf]
  omega

theorem mem_barsInBin_self {h : Nat} {bars : List Bar} {b : Bar} (hb : b ∈ bars) :
    b ∈ barsInBin h bars (binIdx h b) :=
  List.mem_filter.2 ⟨hb, by simp⟩

theorem mem_splitBars_self {h : Nat} {bars : List Bar} {b : Bar} (hb : b ∈ bars) :
    b ∈ splitBars h bars (binIdx h b) (splitOf h bars b) :=
  List.mem_filter.2 ⟨mem_barsInBin_self hb, by simp⟩

theorem binIdx_of_mem_barsInBin {h : Nat} {bars : List Bar} {k : Nat} {x : Bar}
    (hx : x ∈ barsInBin h bars k) : binIdx h x = k := by
  have := (List.mem_filter.1 hx).2
  simpa using this

theorem splitOf_of_mem_splitBars {h : Nat} {bars : List Bar} {k s : Nat} {x : Bar}
    (hx : x ∈ splitBars h bars k s) : splitOf h bars x = s := by
  have := (List.mem_filter.1 hx).2
  simpa using this

theorem mem_of_mem_splitBars {h : Nat} {bars : List Bar} {k s : Nat} {x : Bar}
    (hx : x ∈ splitBars h bars k s) : x ∈ bars :=
  (List.mem_filter.1 (List.mem_filter.1 hx).1).1

theorem vol_le_halfVol {h : Nat} {bars : List Bar}
    (hnn : ∀ x ∈ bars, 0 ≤ x.Volume) {k s : Nat} {b : Bar}
    (hb : b ∈ splitBars h bars k s) : b.Volume ≤ halfVol h bars k s := by
  apply List.single_le_sum
  · intro x hx
    rcases List.mem_map.1 hx with ⟨c, hc, rfl⟩
    exact hnn c (mem_of_mem_splitBars hc)
  · exact List.mem_map_of_mem Bar.Volume hb

theorem binIdx_mem_binRange {h : Nat} {bars : List Bar} {b : Bar} (hb : b ∈ bars) :
    binIdx h b ∈ binRange h bars := by
  have hlo : minBin h bars ≤ binIdx h b := Nat.div_le_div_right (minT_le_of_mem hb)
  have hhi : binIdx h b ≤ maxBin h bars := Nat.div_le_div_right (le_maxT_of_mem hb)
  rw [binRange, List.mem_range'_1]
  omega

/-- Every replicated row of a period's rows belongs to that period's bin. -/
theorem binIdx_of_mem_periodRows {h : Nat} {bars : List Bar} {k : Nat} {x : Bar}
    (hx : x ∈ periodRows h bars k) : binIdx h x = k := by
  rw [periodRows] at hx
  cases hps : positiveSplits h bars k with
  | nil =>
    rw [hps] at hx
    simp at hx
  | cons s0 tail =>
    rw [hps] at hx
    rcases List.mem_flatMap.1 hx with ⟨s, _, hx2⟩
    rcases List.mem_flatMap.1 hx2 with ⟨c, hc, hx3⟩
    have hxc : x = c := (List.mem_replicate.1 hx3).2
    subst hxc
    exact binIdx_of_mem_barsInBin (List.mem_filter.1 hc).1

/-- C9: a bar occurring once in a frame of non-negative volumes appears
in the replicated tick distribution exactly `weightOf` times — its volume
divided by the global scale factor `max volume / 1000` and rounded to the
nearest integer (ties to even, numpy rounding); in particular a weight of
zero contributes no points.  The second conjunct states that the weight
is indeed a nearest integer of the normalized volume. -/
theorem C9_replication (h : Nat) (bars : List Bar) (b : Bar)
    (hnn : ∀ x ∈ bars, 0 ≤ x.Volume) (hb1 : bars.count b = 1) :
    (distribution h bars).count b = (weightOf bars b).toNat
    ∧ |b.Volume / volumeDivider bars - (weightOf bars b : ℚ)| ≤ 1 / 2 := by
  have hbmem : b ∈ bars := List.count_pos_iff.1 (by omega)
  refine ⟨?_, by rw [weightOf]; exact roundHalfEven_abs_le _⟩
  rw [distribution, count_flatMap]
  have hz : ∀ k ∈ periodsList h bars, k ≠ binIdx h b →
      (periodRows h bars k).count b = 0 := by
    intro k _ hk
    rw [List.count_eq_zero]
    intro hmem
    exact hk ((binIdx_of_mem_periodRows hmem).symm)
  rw [sum_map_count_eq (fun k => (periodRows h bars k).count b)
    (periodsList h bars) (binIdx h b) hz]
  cases hps : positiveSplits h bars (binIdx h b) with
  | nil =>
    have hsb := splitOf_lt_two h bars b
    have hble : b.Volume ≤ halfVol h bars (binIdx h b) (splitOf h bars b) :=
      vol_le_halfVol hnn (mem_splitBars_self hbmem)
    have hall := List.filter_eq_nil_iff.1 hps
    have hnotpos : ¬ 0 < halfVol h bars (binIdx h b) (splitOf h bars b) := by
      rcases hsb with hs | hs
      · rw [hs]
        have h2 := hall 0 (by simp)
        simpa using h2
      · rw [hs]
        have h2 := hall 1 (by simp)
        simpa using h2
    have hvol0 : b.Volume = 0 := by
      have h0v := hnn b hbmem
      have := not_lt.1 hnotpos
      linarith
    have hw : weightOf bars b = 0 := by
      rw [weightOf, hvol0, zero_div, roundHalfEven_zero]
    rw [periodRows, hps]
    simp [hw]
  | cons s0 tail =>
    have hmemper : binIdx h b ∈ periodsList h bars := by
      rw [periodsList]
      refine List.mem_filter.2 ⟨binIdx_mem_binRange hbmem, ?_⟩
      have hne : barsInBin h bars (binIdx h b) ≠ [] := by
        intro hnil
        have hmm := mem_barsInBin_self (h := h) hbmem
        rw [hnil] at hmm
        simp at hmm
      simpa using hne
    have hndper : (periodsList h bars).Nodup :=
      List.Nodup.filter _ (List.nodup_range' _ _)
    rw [List.count_eq_one_of_mem hndper hmemper, Nat.one_mul]
    rw [periodRows, hps, count_flatMap]
    have hzs : ∀ s ∈ observedSplits h bars (binIdx h b), s ≠ splitOf h bars b →
        (traceRows h bars (binIdx h b) s).count b = 0 := by
      intro s _ hs
      rw [List.count_eq_zero]
      intro hmem
      rcases List.mem_flatMap.1 hmem with ⟨c, hc, hrep⟩
      have hbc : b = c := (List.mem_replicate.1 hrep).2
      subst hbc
      exact hs ((splitOf_of_mem_splitBars hc).symm)
    rw [sum_map_count_eq (fun s => (traceRows h bars (binIdx h b) s).count b)
      (observedSplits h bars (binIdx h b)) (splitOf h bars b) hzs]
    have hndobs : (observedSplits h bars (binIdx h b)).Nodup :=
      List.Nodup.filter _ (by decide)
    have hmemobs : splitOf h bars b ∈ observedSplits h bars (binIdx h b) := by
      rw [observedSplits]
      refine List.mem_filter.2 ⟨?_, ?_⟩
      · rcases splitOf_lt_two h bars b with hs | hs <;> simp [hs]
      · have hne : splitBars h bars (binIdx h b) (splitOf h bars b) ≠ [] := by
          intro hnil
          have hmm := mem_splitBars_self (h := h) hbmem
          rw [hnil] at hmm
          simp at hmm
        simpa using hne
    rw [List.count_eq_one_of_mem hndobs hmemobs, Nat.one_mul]
    rw [traceRows, count_flatMap]
    have hzc : ∀ c ∈ splitBars h bars (binIdx h b) (splitOf h bars b), c ≠ b →
        (repRows bars c).count b = 0 := by
      intro c _ hc
      rw [repRows, List.count_replicate]
      simp [hc]
    rw [sum_map_count_eq (fun c => (repRows bars c).count b)
      (splitBars h bars (binIdx h b) (splitOf h bars b)) b hzc]
    have hcnt : (splitBars h bars (binIdx h b) (splitOf h bars b)).count b = 1 := by
      rw [splitBars, List.count_filter (by simp), barsInBin,
        List.count_filter (by simp)]
      exact hb1
    rw [hcnt, Nat.one_mul, repRows, List.count_replicate_self]

/-- The first bar of the worked scenario, used as a concrete row of the
distribution. -/
def c9bar : Bar := { t := 0, Open := 100, High := 100, Low := 100, Close := 100, Volume := 10 }

theorem C9_witness :
    (∀ x ∈ c2bars, 0 ≤ x.Volume) ∧ c2bars.count c9bar = 1
    ∧ ((distribution 15 c2bars).count c9bar = (weightOf c2bars c9bar).toNat
        ∧ |c9bar.Volume / volumeDivider c2bars - (weightOf c2bars c9bar : ℚ)| ≤ 1 / 2) :=
  ⟨by decide, by decide, C9_replication 15 c2bars c9bar (by decide) (by decide)⟩

/-! ### C5: parameter validation and the no-data error -/

/-- C5 is false as stated: a call with the ticker missing (and valid
dates) is not rejected — the ticker parameter is never validated, the
default `"AAPL"` is used, acquisition runs, and here the call succeeds. -/
theorem C5_counterexample :
    (make_raindrop_chart (fun _ _ _ => c2bars) none (some "2024-01-01")
        (some "2024-01-08") 15 (1 / 10)).isOk = true := by
  have hv0 : 0 < halfVol 15 c2bars 0 0 := by
    norm_num [halfVol, splitBars, barsInBin, binIdx, splitOf, minT, c2bars]
  have hv1 : 0 < halfVol 15 c2bars 0 1 := by
    norm_num [halfVol, splitBars, barsInBin, binIdx, splitOf, minT, c2bars]
  have hps : positiveSplits 15 c2bars 0 = [0, 1] := by
    norm_num [positiveSplits, hv0, hv1]
  have hper : periodsList 15 c2bars = [0] := by decide
  have hret : returnedVwaps 15 c2bars
      = some (halfVWAP 15 c2bars 0 0, halfVWAP 15 c2bars 0 1) := by
    rw [returnedVwaps, hper]
    simp only [List.foldl_cons, List.foldl_nil, hps]
  have hohlc : (ohlc 15 c2bars).isEmpty = false := by decide
  have hdates : (pyFalsyStr (some "2024-01-01") || pyFalsyStr (some "2024-01-08")) = false := by
    decide
  have hdf : c2bars.isEmpty = false := by decide
  rw [make_raindrop_chart]
  simp only [hdates, Bool.false_eq_true, if_false, Option.getD_some, Option.getD_none,
    hdf, hohlc, hret]
  rfl

/-- C5 (amended): the invalid-parameters rejection happens exactly when
start or end is missing or empty — the ticker is not validated, a missing
ticker silently falls back to the default `"AAPL"`; and with start and
end present, an empty acquisition yields the no-data error whose message
names the (defaulted) ticker and the requested date range. -/
theorem C5_validation (download : String → String → String → List Bar)
    (ticker? startDate? endDate? : Option String) (h : Nat) (margin : ℚ) :
    ((make_raindrop_chart download ticker? startDate? endDate? h margin
        = .error (.invalidParams "Start and End dates must be provided."))
      ↔ (pyFalsyStr startDate? || pyFalsyStr endDate?) = true)
    ∧ (pyFalsyStr startDate? = false → pyFalsyStr endDate? = false →
        download (ticker?.getD "AAPL") (startDate?.getD "") (endDate?.getD "") = [] →
        make_raindrop_chart download ticker? startDate? endDate? h margin
          = .error (.noData ("No data returned for " ++ ticker?.getD "AAPL"
              ++ " between " ++ startDate?.getD "" ++ " and " ++ endDate?.getD ""
              ++ ". Check if the ticker is correct or if there's data available in this range."))) := by
  constructor
  · constructor
    · intro heq
      by_cases hcond : (pyFalsyStr startDate? || pyFalsyStr endDate?) = true
      · exact hcond
      · exfalso
        rw [Bool.not_eq_true] at hcond
        rw [make_raindrop_chart, hcond] at heq
        simp only [Bool.false_eq_true, if_false] at heq
        split at heq
        · simp at heq
        · split at heq
          · simp at heq
          · split at heq
            · simp at heq
            · simp at heq
    · intro hcond
      rw [make_raindrop_chart, hcond]
      simp
  · intro h1 h2 hdl
    have hcond : (pyFalsyStr startDate? || pyFalsyStr endDate?) = false := by
      rw [h1, h2]
      rfl
    rw [make_raindrop_chart, hcond]
    simp only [Bool.false_eq_true, if_false]
    rw [hdl]
    simp

theorem C5_witness :
    pyFalsyStr (some "2024-01-01") = false ∧ pyFalsyStr (some "2024-01-08") = false
    ∧ make_raindrop_chart (fun _ _ _ => []) (some "MSFT") (some "2024-01-01")
        (some "2024-01-08") 15 (1 / 10)
      = .error (.noData ("No data returned for " ++ (some "MSFT").getD "AAPL"
          ++ " between " ++ (some "2024-01-01").getD "" ++ " and "
          ++ (some "2024-01-08").getD ""
          ++ ". Check if the ticker is correct or if there's data available in this range.")) :=
  ⟨by decide, by decide,
    (C5_validation (fun _ _ _ => []) (some "MSFT") (some "2024-01-01")
        (some "2024-01-08") 15 (1 / 10)).2 (by decide) (by decide) rfl⟩
